import Mathlib

/-!
Verification of `check_spdx_identifiers.py`, a one-shot linter that walks a
directory tree and checks that every non-ignored file carries the SPDX
license marker on its first non-shebang line.

The embedding models text as lists of characters (a Python `str` used for
lines and path segments), a filesystem traversal as the list of entries
yielded by `root.rglob("*")` in discovery order, and the possibility that
opening or reading a file raises an exception as an `Except` value: the
Python loop has no `try`, so the first read failure aborts the whole run.
-/

namespace SpdxCheck

/-- Characters of a Python string: a line of a file, a path segment, or a
printed line of output. -/
abbrev Chars := List Char

/-- The marker constant `SPDX_IDENT = "SPDX-License-Identifier: "`. -/
def SPDX_IDENT : Chars := "SPDX-License-Identifier: ".data

/-- The hard-coded ignore list `ignored` from the body of `check`. -/
def ignored : List Chars :=
  [".git".data, ".gitmodules".data, ".gitignore".data,
   "LICENSE".data,
   "zig-out".data, ".zig-cache".data,
   "third-party".data]

/-- Python substring containment `pat in s`: `pat` occurs contiguously
somewhere inside `s`. -/
def strContains (s pat : Chars) : Bool :=
  pat.isPrefixOf s ||
    match s with
    | [] => false
    | _ :: rest => strContains rest pat

/-- Python `line.startswith "#!"`, the shebang test of `check`. -/
def isShebang (line : Chars) : Bool :=
  "#!".data.isPrefixOf line

/-- The line under test: `f.readline()` gives the first line (or the empty
string for an empty file); when that line starts with a shebang, a second
`f.readline()` replaces it by the next line (or the empty string when there
is none).  A file is modelled by its list of lines. -/
def lineUnderTest (lines : List Chars) : Chars :=
  let first := lines.headD []
  if isShebang first then (lines.drop 1).headD [] else first

/-- The skip test of `check`: some `ignored_str in path.parts`, i.e. some
ignore token equals one of the path segments exactly. -/
def isSkipped (parts : List Chars) : Bool :=
  ignored.any (fun tok => parts.contains tok)

/-- The header printed before the first violating path:
`f"Files found without \"SPDX_IDENT\" in the first line:"` with the marker
interpolated. -/
def headerLine : Chars :=
  "Files found without \"SPDX-License-Identifier: \" in the first line:".data

/-- `print(path)`: the textual form of a path, its segments joined by `/`. -/
def pathStr (parts : List Chars) : Chars :=
  List.intercalate "/".data parts

/-- Result of `open(path, "r")` followed by the `readline` calls: either
the file's lines, or an uncaught exception (permission, I/O, decoding)
carrying a message. -/
inductive ReadResult where
  | ok (lines : List Chars)
  | err (msg : Chars)
deriving DecidableEq

/-- A filesystem entry yielded by `root.rglob("*")`: its full path segments
(`path.parts`, which include the segments of `root` itself), whether it is
a directory, and what reading it would produce. -/
structure Entry where
  parts : List Chars
  isDir : Bool
  content : ReadResult
deriving DecidableEq

/-- The mutable state of the loop in `check`: the `problems_found` counter
and the lines printed to standard output so far, in order. -/
structure St where
  problems : Nat
  out : List Chars
deriving DecidableEq

/-- One iteration of the loop in `check` on entry `e`: directories are
skipped, then the ignore filter is applied, then the file is read (a read
failure escapes as an exception), and finally the marker test decides
whether to report the file, printing the header before the first violating
path. -/
def procEntry (st : St) (e : Entry) : Except Chars St :=
  if e.isDir then .ok st
  else if isSkipped e.parts then .ok st
  else match e.content with
    | .err m => .error m
    | .ok lines =>
      if strContains (lineUnderTest lines) SPDX_IDENT then .ok st
      else
        .ok { problems := st.problems + 1,
              out := (if st.problems = 0 then st.out ++ [headerLine] else st.out)
                       ++ [pathStr e.parts] }

/-- The loop of `check` run from state `st` over the remaining entries; an
uncaught exception aborts the whole run. -/
def runFrom (st : St) : List Entry → Except Chars St
  | [] => .ok st
  | e :: rest =>
    match procEntry st e with
    | .error m => .error m
    | .ok st2 => runFrom st2 rest

/-- The full loop of `check(root)` over the entries yielded by
`root.rglob("*")`, starting from `problems_found = 0` and nothing printed. -/
def runCheck (entries : List Entry) : Except Chars St :=
  runFrom ⟨0, []⟩ entries

/-- `check(root)` itself: `return problems_found != 0`. -/
def check (entries : List Entry) : Except Chars Bool :=
  (runCheck entries).map (fun st => st.problems != 0)

/-- The `__main__` entry point `sys.exit(check(Path.cwd()))`: the boolean
becomes the process exit code (`True` is the integer 1, `False` is 0). -/
def exitCode (entries : List Entry) : Except Chars Nat :=
  (check entries).map (fun b => if b then 1 else 0)

/-- The lines a successful read would yield, `none` on a read failure. -/
def readLines : ReadResult → Option (List Chars)
  | .ok ls => some ls
  | .err _ => none

/-- An entry whose content can be read without an exception. -/
def readable (e : Entry) : Bool :=
  (readLines e.content).isSome

/-- A checkable entry: not a directory and not caught by the ignore
filter. -/
def survives (e : Entry) : Bool :=
  !e.isDir && !isSkipped e.parts

/-- A violation: a checkable entry whose line under test lacks the
marker. -/
def violating (e : Entry) : Bool :=
  survives e &&
    (match readLines e.content with
     | some ls => !strContains (lineUnderTest ls) SPDX_IDENT
     | none => false)

/-- The paths of the violating entries, in discovery order. -/
def violPaths (entries : List Entry) : List Chars :=
  (entries.filter violating).map (fun e => pathStr e.parts)

/-- The output of a run with no read failure: nothing when there is no
violation, otherwise the header once followed by the violating paths in
discovery order. -/
def expectedOut (entries : List Entry) : List Chars :=
  if entries.countP (fun e => violating e) = 0 then []
  else headerLine :: violPaths entries

/-! ### Sample entries used to instantiate the theorems -/

/-- A file whose first line carries the marker. -/
def sampleOk : Entry :=
  ⟨["a.py".data], false, .ok ["# SPDX-License-Identifier: MIT".data]⟩

/-- A file whose first line lacks the marker. -/
def sampleBad : Entry :=
  ⟨["b.py".data], false, .ok ["# no license here".data]⟩

/-- A shebang script with the marker on its second line. -/
def sampleShebangOk : Entry :=
  ⟨["c.sh".data], false,
   .ok ["#!/bin/sh".data, "# SPDX-License-Identifier: MIT".data]⟩

/-- An empty file. -/
def sampleEmpty : Entry :=
  ⟨["d.py".data], false, .ok []⟩

/-- A file under the ignored `.git` directory that cannot even be read. -/
def sampleGit : Entry :=
  ⟨[".git".data, "config".data], false, .err "unreadable".data⟩

/-- An unreadable checkable file. -/
def sampleErr : Entry :=
  ⟨["e.py".data], false, .err "denied".data⟩

/-- A file whose only line is a shebang that itself contains the marker. -/
def sampleShebangMarker : Entry :=
  ⟨["f.sh".data], false, .ok ["#!SPDX-License-Identifier: MIT".data]⟩

/-- A file under a root whose own path contains the ignored segment
`third-party`. -/
def sampleUnderIgnoredRoot : Entry :=
  ⟨["third-party".data, "sub".data, "g.c".data], false, .ok ["no marker".data]⟩

/-! ### Helper lemmas -/

theorem isPrefixOf_iff_append (l s : Chars) :
    l.isPrefixOf s = true ↔ ∃ t, l ++ t = s := by
  induction l generalizing s with
  | nil => simp [List.isPrefixOf]
  | cons a l ih =>
    cases s with
    | nil => simp [List.isPrefixOf]
    | cons b s => simp [List.isPrefixOf, ih]

theorem strContains_iff (s pat : Chars) :
    strContains s pat = true ↔ ∃ pre post, pre ++ pat ++ post = s := by
  induction s with
  | nil =>
    simp [strContains, isPrefixOf_iff_append]
  | cons c rest ih =>
    rw [strContains]
    simp only [Bool.or_eq_true, isPrefixOf_iff_append, ih]
    constructor
    · rintro (⟨t, ht⟩ | ⟨pre, post, h⟩)
      · exact ⟨[], t, by simpa using ht⟩
      · exact ⟨c :: pre, post, by simp [← h]⟩
    · rintro ⟨pre, post, h⟩
      cases pre with
      | nil => exact Or.inl ⟨post, by simpa using h⟩
      | cons a pre =>
        right
        simp only [List.cons_append, List.cons.injEq] at h
        exact ⟨pre, post, h.2⟩

theorem isSkipped_iff (parts : List Chars) :
    isSkipped parts = true ↔ ∃ tok ∈ ignored, tok ∈ parts := by
  simp [isSkipped, List.any_eq_true]

theorem survives_iff (e : Entry) :
    survives e = true ↔ e.isDir = false ∧ isSkipped e.parts = false := by
  simp [survives]

theorem procEntry_of_skip (st : St) (e : Entry) (h : isSkipped e.parts = true) :
    procEntry st e = .ok st := by
  unfold procEntry
  cases hd : e.isDir <;> simp [h]

theorem procEntry_of_dir (st : St) (e : Entry) (h : e.isDir = true) :
    procEntry st e = .ok st := by
  simp [procEntry, h]

theorem procEntry_err (st : St) (e : Entry) (m : Chars)
    (hs : survives e = true) (hc : e.content = .err m) :
    procEntry st e = .error m := by
  rcases (survives_iff e).mp hs with ⟨hd, hsk⟩
  simp [procEntry, hd, hsk, hc]

theorem procEntry_pass (st : St) (e : Entry) (ls : List Chars)
    (hs : survives e = true) (hc : e.content = .ok ls)
    (hm : strContains (lineUnderTest ls) SPDX_IDENT = true) :
    procEntry st e = .ok st := by
  rcases (survives_iff e).mp hs with ⟨hd, hsk⟩
  simp [procEntry, hd, hsk, hc, hm]

theorem procEntry_fail (st : St) (e : Entry) (ls : List Chars)
    (hs : survives e = true) (hc : e.content = .ok ls)
    (hm : strContains (lineUnderTest ls) SPDX_IDENT = false) :
    procEntry st e =
      .ok ⟨st.problems + 1,
           (if st.problems = 0 then st.out ++ [headerLine] else st.out)
             ++ [pathStr e.parts]⟩ := by
  rcases (survives_iff e).mp hs with ⟨hd, hsk⟩
  simp [procEntry, hd, hsk, hc, hm]

theorem procEntry_not_violating (st : St) (e : Entry)
    (hv : violating e = false) (hr : survives e = true → readable e = true) :
    procEntry st e = .ok st := by
  cases hd : e.isDir with
  | true => exact procEntry_of_dir st e hd
  | false =>
    cases hsk : isSkipped e.parts with
    | true => exact procEntry_of_skip st e hsk
    | false =>
      have hs : survives e = true := (survives_iff e).mpr ⟨hd, hsk⟩
      cases hc : e.content with
      | err m =>
        exfalso
        have := hr hs
        rw [readable, hc] at this
        simp [readLines] at this
      | ok ls =>
        have hm : strContains (lineUnderTest ls) SPDX_IDENT = true := by
          rw [violating, hs, hc] at hv
          simp [readLines] at hv
          exact hv
        exact procEntry_pass st e ls hs hc hm

theorem violating_content (e : Entry) (h : violating e = true) :
    ∃ ls, e.content = .ok ls ∧ survives e = true ∧
      strContains (lineUnderTest ls) SPDX_IDENT = false := by
  rw [violating, Bool.and_eq_true] at h
  rcases h with ⟨hs, hm⟩
  cases hc : e.content with
  | err m => rw [hc] at hm; simp [readLines] at hm
  | ok ls =>
    rw [hc] at hm
    simp [readLines] at hm
    exact ⟨ls, rfl, hs, hm⟩

theorem violPaths_cons_neg (e : Entry) (rest : List Entry)
    (h : violating e = false) : violPaths (e :: rest) = violPaths rest := by
  simp [violPaths, List.filter_cons, h]

theorem violPaths_cons_pos (e : Entry) (rest : List Entry)
    (h : violating e = true) :
    violPaths (e :: rest) = pathStr e.parts :: violPaths rest := by
  simp [violPaths, List.filter_cons, h]

theorem expectedOut_cons_neg (e : Entry) (rest : List Entry)
    (h : violating e = false) : expectedOut (e :: rest) = expectedOut rest := by
  simp [expectedOut, List.countP_cons, h, violPaths_cons_neg e rest h]

theorem runFrom_spec (entries : List Entry) : ∀ st : St,
    (∀ e ∈ entries, readable e = true) →
    runFrom st entries =
      .ok ⟨st.problems + entries.countP (fun e => violating e),
           st.out ++ (if st.problems = 0 then expectedOut entries
                      else violPaths entries)⟩ := by
  induction entries with
  | nil =>
    intro st h
    simp [runFrom, expectedOut, violPaths]
  | cons e rest ih =>
    intro st h
    have hre : readable e = true := h e (List.mem_cons_self e rest)
    have hrest : ∀ x ∈ rest, readable x = true :=
      fun x hx => h x (List.mem_cons_of_mem e hx)
    cases hv : violating e with
    | false =>
      rw [runFrom]
      simp only [procEntry_not_violating st e hv (fun _ => hre)]
      rw [ih st hrest]
      simp [List.countP_cons, hv, expectedOut_cons_neg e rest hv,
        violPaths_cons_neg e rest hv]
    | true =>
      rcases violating_content e hv with ⟨ls, hc, hs, hm⟩
      rw [runFrom]
      simp only [procEntry_fail st e ls hs hc hm]
      rw [ih _ hrest]
      have hvp := violPaths_cons_pos e rest hv
      have hcnt : (e :: rest).countP (fun x => violating x) =
          rest.countP (fun x => violating x) + 1 := by
        simp [List.countP_cons, hv]
      by_cases hp : st.problems = 0
      · simp only [hp, if_pos rfl, Except.ok.injEq, St.mk.injEq,
          Nat.add_one_ne_zero, if_false, if_neg (Nat.add_one_ne_zero 0)]
        constructor
        · omega
        · rw [expectedOut, hcnt]
          simp [hvp, List.append_assoc]
      · simp only [if_neg hp, Except.ok.injEq, St.mk.injEq]
        have hp1 : ¬ st.problems + 1 = 0 := Nat.add_one_ne_zero _
        simp only [if_neg hp1]
        constructor
        · omega
        · simp [hvp, List.append_assoc]

theorem runCheck_spec (entries : List Entry)
    (h : ∀ e ∈ entries, readable e = true) :
    runCheck entries =
      .ok ⟨entries.countP (fun e => violating e), expectedOut entries⟩ := by
  rw [runCheck, runFrom_spec entries ⟨0, []⟩ h]
  simp

theorem check_spec (entries : List Entry)
    (h : ∀ e ∈ entries, readable e = true) :
    check entries = .ok (entries.countP (fun e => violating e) != 0) := by
  rw [check, runCheck_spec entries h]
  rfl

theorem check_singleton (e : Entry) (ls : List Chars)
    (hs : survives e = true) (hc : e.content = .ok ls) :
    check [e] = .ok (!strContains (lineUnderTest ls) SPDX_IDENT) := by
  cases hm : strContains (lineUnderTest ls) SPDX_IDENT with
  | false =>
    rw [check, runCheck, runFrom]
    simp only [procEntry_fail ⟨0, []⟩ e ls hs hc hm]
    rfl
  | true =>
    rw [check, runCheck, runFrom]
    simp only [procEntry_pass ⟨0, []⟩ e ls hs hc hm]
    rfl

theorem procEntry_error_iff (st : St) (e : Entry) :
    (∃ m, procEntry st e = Except.error m) ↔
      (survives e = true ∧ readable e = false) := by
  cases hd : e.isDir with
  | true =>
    simp [procEntry_of_dir st e hd, survives, hd]
  | false =>
    cases hsk : isSkipped e.parts with
    | true =>
      simp [procEntry_of_skip st e hsk, survives, hsk]
    | false =>
      have hs : survives e = true := (survives_iff e).mpr ⟨hd, hsk⟩
      cases hc : e.content with
      | err m =>
        simp [procEntry_err st e m hs hc, hs, readable, readLines, hc]
      | ok ls =>
        have hr : readable e = true := by simp [readable, readLines, hc]
        cases hm : strContains (lineUnderTest ls) SPDX_IDENT with
        | true => simp [procEntry_pass st e ls hs hc hm, hr]
        | false => simp [procEntry_fail st e ls hs hc hm, hr]

/-! ### Claims -/

/-- C1: for every root, `check` returns `true` iff at least one checkable
file (a non-directory entry surviving the ignore filter) is a violation,
and returns `false` when every checkable file passes the marker test. -/
theorem check_true_iff_violation (entries : List Entry)
    (h : ∀ e ∈ entries, readable e = true) :
    (check entries = Except.ok true ↔ ∃ e ∈ entries, violating e = true) ∧
    (check entries = Except.ok false ↔ ∀ e ∈ entries, violating e = false) := by
  rw [check_spec entries h]
  constructor
  · simp [bne_iff_ne, ← Nat.pos_iff_ne_zero, List.countP_pos_iff]
  · simp [List.countP_eq_zero]

/-- Witness for C1 at a one-file root whose file lacks the marker. -/
theorem check_true_iff_violation_w :
    (∀ e ∈ [sampleBad], readable e = true) ∧
    ((check [sampleBad] = Except.ok true ↔
        ∃ e ∈ [sampleBad], violating e = true) ∧
     (check [sampleBad] = Except.ok false ↔
        ∀ e ∈ [sampleBad], violating e = false)) :=
  ⟨by decide, check_true_iff_violation [sampleBad] (by decide)⟩

/-- C2: a file surviving the ignore filter is reported as a violation iff
the marker substring appears nowhere within the line under test, and as
non-violating iff the marker occurs somewhere in that line. -/
theorem violation_iff_marker_absent (e : Entry) (ls : List Chars)
    (hs : survives e = true) (hc : e.content = .ok ls) :
    (check [e] = Except.ok true ↔
      ¬ ∃ pre post, pre ++ SPDX_IDENT ++ post = lineUnderTest ls) ∧
    (check [e] = Except.ok false ↔
      ∃ pre post, pre ++ SPDX_IDENT ++ post = lineUnderTest ls) := by
  rw [check_singleton e ls hs hc, ← strContains_iff]
  cases hm : strContains (lineUnderTest ls) SPDX_IDENT <;> simp [hm]

/-- Witness for C2 at a file whose first line carries the marker. -/
theorem violation_iff_marker_absent_w :
    survives sampleOk = true ∧
    ((check [sampleOk] = Except.ok true ↔
        ¬ ∃ pre post, pre ++ SPDX_IDENT ++ post =
          lineUnderTest ["# SPDX-License-Identifier: MIT".data]) ∧
     (check [sampleOk] = Except.ok false ↔
        ∃ pre post, pre ++ SPDX_IDENT ++ post =
          lineUnderTest ["# SPDX-License-Identifier: MIT".data])) :=
  ⟨by decide, violation_iff_marker_absent sampleOk _ (by decide) rfl⟩

/-- C3: when the first line starts with a shebang, the second line (or the
empty string) becomes the line under test, and the file is reported
violating exactly when that line lacks the marker. -/
theorem shebang_uses_second_line (e : Entry) (l1 : Chars) (rest : List Chars)
    (hs : survives e = true) (hc : e.content = .ok (l1 :: rest))
    (hsh : isShebang l1 = true) :
    lineUnderTest (l1 :: rest) = rest.headD [] ∧
    check [e] = Except.ok (!strContains (rest.headD []) SPDX_IDENT) := by
  have hl : lineUnderTest (l1 :: rest) = rest.headD [] := by
    simp [lineUnderTest, hsh]
  refine ⟨hl, ?_⟩
  rw [check_singleton e (l1 :: rest) hs hc, hl]

/-- Witness for C3 at a shebang script with the marker on its second
line. -/
theorem shebang_uses_second_line_w :
    survives sampleShebangOk = true ∧ isShebang "#!/bin/sh".data = true ∧
    (lineUnderTest ["#!/bin/sh".data, "# SPDX-License-Identifier: MIT".data] =
       List.headD ["# SPDX-License-Identifier: MIT".data] [] ∧
     check [sampleShebangOk] = Except.ok
       (!strContains (List.headD ["# SPDX-License-Identifier: MIT".data] [])
          SPDX_IDENT)) :=
  ⟨by decide, by decide,
   shebang_uses_second_line sampleShebangOk "#!/bin/sh".data
     ["# SPDX-License-Identifier: MIT".data] (by decide) rfl (by decide)⟩

/-- C4: a checkable file with zero lines, or with only a shebang line and
no second line, has the empty string as line under test, which does not
contain the marker, so the file is reported as a violation. -/
theorem empty_file_violates (e : Entry) (ls : List Chars)
    (hs : survives e = true) (hc : e.content = .ok ls)
    (h : ls = [] ∨ ∃ l1, ls = [l1] ∧ isShebang l1 = true) :
    lineUnderTest ls = [] ∧ strContains [] SPDX_IDENT = false ∧
    check [e] = Except.ok true := by
  have hl : lineUnderTest ls = [] := by
    rcases h with rfl | ⟨l1, rfl, hsh⟩
    · rfl
    · simp [lineUnderTest, hsh]
  refine ⟨hl, rfl, ?_⟩
  rw [check_singleton e ls hs hc, hl]
  rfl

/-- Witness for C4 at an empty file. -/
theorem empty_file_violates_w :
    survives sampleEmpty = true ∧
    (lineUnderTest [] = [] ∧ strContains [] SPDX_IDENT = false ∧
     check [sampleEmpty] = Except.ok true) :=
  ⟨by decide, empty_file_violates sampleEmpty [] (by decide) rfl (Or.inl rfl)⟩

/-- C5: an entry whose path contains an ignore token as an exact segment is
skipped entirely: inserting it anywhere in the traversal changes neither
the run state (count, output, error) nor the result, even when reading it
would raise. -/
theorem skipped_entry_inert (e : Entry)
    (h : ∃ tok ∈ ignored, tok ∈ e.parts) :
    ∀ xs ys : List Entry,
      runCheck (xs ++ e :: ys) = runCheck (xs ++ ys) ∧
      check (xs ++ e :: ys) = check (xs ++ ys) := by
  have hsk : isSkipped e.parts = true := (isSkipped_iff e.parts).mpr h
  have key : ∀ (xs : List Entry) (st : St) (ys : List Entry),
      runFrom st (xs ++ e :: ys) = runFrom st (xs ++ ys) := by
    intro xs
    induction xs with
    | nil =>
      intro st ys
      rw [List.nil_append, List.nil_append, runFrom]
      simp only [procEntry_of_skip st e hsk]
    | cons x xs ih =>
      intro st ys
      rw [List.cons_append, List.cons_append, runFrom, runFrom]
      cases hpe : procEntry st x with
      | error m => rfl
      | ok st2 =>
        simp only [hpe]
        exact ih st2 ys
  intro xs ys
  have kr : runCheck (xs ++ e :: ys) = runCheck (xs ++ ys) := key xs ⟨0, []⟩ ys
  refine ⟨kr, ?_⟩
  rw [check, check, kr]

/-- Witness for C5: an unreadable `.git` file inserted before a clean file
changes nothing. -/
theorem skipped_entry_inert_w :
    (∃ tok ∈ ignored, tok ∈ sampleGit.parts) ∧
    (runCheck ([] ++ sampleGit :: [sampleOk]) = runCheck ([] ++ [sampleOk]) ∧
     check ([] ++ sampleGit :: [sampleOk]) = check ([] ++ [sampleOk])) :=
  ⟨by decide, skipped_entry_inert sampleGit (by decide) [] [sampleOk]⟩

/-- C6: in a run with no read failure, nothing is printed when there is no
violation, and otherwise the output is the header exactly once followed by
the violating paths, one per line, in discovery order. -/
theorem output_header_once (entries : List Entry)
    (h : ∀ e ∈ entries, readable e = true) :
    runCheck entries =
      Except.ok ⟨entries.countP (fun e => violating e),
        if entries.countP (fun e => violating e) = 0 then []
        else headerLine :: violPaths entries⟩ :=
  runCheck_spec entries h

/-- Witness for C6 at a two-file root with two violations. -/
theorem output_header_once_w :
    (∀ e ∈ [sampleBad, sampleEmpty], readable e = true) ∧
    runCheck [sampleBad, sampleEmpty] =
      Except.ok ⟨List.countP (fun e => violating e) [sampleBad, sampleEmpty],
        if List.countP (fun e => violating e) [sampleBad, sampleEmpty] = 0
        then [] else headerLine :: violPaths [sampleBad, sampleEmpty]⟩ :=
  ⟨by decide, output_header_once [sampleBad, sampleEmpty] (by decide)⟩

/-- C7: the entry point's exit code is the boolean result of `check` as an
integer: 0 exactly when no violation was found, 1 exactly when at least
one was. -/
theorem exit_code_matches_check (entries : List Entry)
    (h : ∀ e ∈ entries, readable e = true) :
    (∃ b, check entries = Except.ok b ∧
       exitCode entries = Except.ok (if b then 1 else 0)) ∧
    (exitCode entries = Except.ok 0 ↔ ∀ e ∈ entries, violating e = false) ∧
    (exitCode entries = Except.ok 1 ↔ ∃ e ∈ entries, violating e = true) := by
  have hcs := check_spec entries h
  have key : exitCode entries =
      Except.ok (if (entries.countP fun e => violating e) = 0 then 0 else 1) := by
    rw [exitCode, hcs]
    cases hn : (entries.countP fun e => violating e) with
    | zero => rfl
    | succ n => rfl
  refine ⟨⟨_, hcs, ?_⟩, ?_, ?_⟩
  · rw [key]
    cases hn : (entries.countP fun e => violating e) with
    | zero => rfl
    | succ n => rfl
  · rw [key]
    by_cases hz : (entries.countP fun e => violating e) = 0
    · rw [List.countP_eq_zero] at hz
      simp [if_pos, hz]
    · have hz2 := hz
      rw [List.countP_eq_zero] at hz2
      simp only [if_neg hz]
      constructor
      · intro hcon
        simp at hcon
      · intro hall
        exact absurd (fun e he => by simp [hall e he]) hz2
  · rw [key]
    by_cases hz : (entries.countP fun e => violating e) = 0
    · have hz2 := hz
      rw [List.countP_eq_zero] at hz2
      simp only [if_pos hz]
      constructor
      · intro hcon
        simp at hcon
      · rintro ⟨e, he, hv⟩
        exact absurd hv (by simpa using hz2 e he)
    · have hpos : 0 < entries.countP fun e => violating e :=
        Nat.pos_of_ne_zero hz
      rw [List.countP_pos_iff] at hpos
      simp [if_neg hz, hpos]

/-- Witness for C7 at a one-file root with one violation. -/
theorem exit_code_matches_check_w :
    (∀ e ∈ [sampleBad], readable e = true) ∧
    ((∃ b, check [sampleBad] = Except.ok b ∧
        exitCode [sampleBad] = Except.ok (if b then 1 else 0)) ∧
     (exitCode [sampleBad] = Except.ok 0 ↔
        ∀ e ∈ [sampleBad], violating e = false) ∧
     (exitCode [sampleBad] = Except.ok 1 ↔
        ∃ e ∈ [sampleBad], violating e = true)) :=
  ⟨by decide, exit_code_matches_check [sampleBad] (by decide)⟩

/-- C8: a read failure on a file surviving the ignore filter is never
caught: the run aborts with an error (and produces no result at all)
exactly when such a file exists, and a read failure is never turned into a
soft violation. -/
theorem read_error_aborts (entries : List Entry) :
    (∃ m, runCheck entries = Except.error m) ↔
      ∃ e ∈ entries, survives e = true ∧ readable e = false := by
  suffices key : ∀ st, (∃ m, runFrom st entries = Except.error m) ↔
      ∃ e ∈ entries, survives e = true ∧ readable e = false by
    exact key ⟨0, []⟩
  induction entries with
  | nil =>
    intro st
    simp [runFrom]
  | cons e rest ih =>
    intro st
    rw [runFrom]
    cases hpe : procEntry st e with
    | error m =>
      have he := (procEntry_error_iff st e).mp ⟨m, hpe⟩
      simp only [hpe]
      exact iff_of_true ⟨m, rfl⟩ ⟨e, List.mem_cons_self e rest, he⟩
    | ok st2 =>
      have hne : ¬(survives e = true ∧ readable e = false) := by
        intro hcon
        rcases (procEntry_error_iff st e).mpr hcon with ⟨m, hm⟩
        rw [hpe] at hm
        exact Except.noConfusion hm
      simp only [hpe]
      rw [ih st2]
      constructor
      · rintro ⟨x, hx, hpx⟩
        exact ⟨x, List.mem_cons_of_mem e hx, hpx⟩
      · rintro ⟨x, hx, hpx⟩
        rcases List.mem_cons.mp hx with rfl | hx2
        · exact absurd hpx hne
        · exact ⟨x, hx2, hpx⟩

/-- C9: a marker on the shebang line itself never satisfies the check: the
shebang line is discarded even when it contains the marker, so a file whose
only line is a marker-bearing shebang is still a violation. -/
theorem shebang_marker_does_not_count (e : Entry) (l1 : Chars)
    (rest : List Chars)
    (hs : survives e = true) (hc : e.content = .ok (l1 :: rest))
    (hsh : isShebang l1 = true)
    (hm1 : strContains l1 SPDX_IDENT = true)
    (hm2 : strContains (rest.headD []) SPDX_IDENT = false) :
    check [e] = Except.ok true := by
  have hl : lineUnderTest (l1 :: rest) = rest.headD [] := by
    simp [lineUnderTest, hsh]
  rw [check_singleton e (l1 :: rest) hs hc, hl, hm2]
  rfl

/-- Witness for C9: a file whose only line is a shebang containing the
marker is reported as a violation. -/
theorem shebang_marker_does_not_count_w :
    survives sampleShebangMarker = true ∧
    isShebang "#!SPDX-License-Identifier: MIT".data = true ∧
    strContains "#!SPDX-License-Identifier: MIT".data SPDX_IDENT = true ∧
    strContains (List.headD ([] : List Chars) []) SPDX_IDENT = false ∧
    check [sampleShebangMarker] = Except.ok true :=
  ⟨by decide, by decide, by decide, by decide,
   shebang_marker_does_not_count sampleShebangMarker
     "#!SPDX-License-Identifier: MIT".data [] (by decide) rfl
     (by decide) (by decide) (by decide)⟩

/-- C10: the ignore test sees the full paths yielded by the traversal,
including the root's own segments: when an ancestor segment of the root
equals an ignore token, every file is skipped, nothing is printed, and
`check` returns `false` regardless of contents. -/
theorem ignored_root_segment_skips_all (rootParts : List Chars)
    (entries : List Entry)
    (h1 : ∃ tok ∈ ignored, tok ∈ rootParts)
    (h2 : ∀ e ∈ entries, rootParts <+: e.parts) :
    runCheck entries = Except.ok ⟨0, []⟩ ∧
    check entries = Except.ok false := by
  have hsk : ∀ e ∈ entries, isSkipped e.parts = true := by
    intro e he
    rcases h1 with ⟨tok, htok, hmem⟩
    exact (isSkipped_iff e.parts).mpr ⟨tok, htok, (h2 e he).subset hmem⟩
  have key : ∀ (l : List Entry), (∀ e ∈ l, isSkipped e.parts = true) →
      ∀ st, runFrom st l = .ok st := by
    intro l
    induction l with
    | nil => intro _ st; rfl
    | cons x xs ih =>
      intro hl st
      rw [runFrom]
      simp only [procEntry_of_skip st x (hl x (List.mem_cons_self x xs))]
      exact ih (fun y hy => hl y (List.mem_cons_of_mem x hy)) st
  have hr : runCheck entries = Except.ok ⟨0, []⟩ := key entries hsk ⟨0, []⟩
  refine ⟨hr, ?_⟩
  rw [check, hr]
  rfl

/-- Witness for C10: a root living under a `third-party` directory makes
every file skipped, even a marker-less one. -/
theorem ignored_root_segment_skips_all_w :
    (∃ tok ∈ ignored, tok ∈ ["third-party".data]) ∧
    (∀ e ∈ [sampleUnderIgnoredRoot], ["third-party".data] <+: e.parts) ∧
    (runCheck [sampleUnderIgnoredRoot] = Except.ok ⟨0, []⟩ ∧
     check [sampleUnderIgnoredRoot] = Except.ok false) :=
  ⟨by decide, by decide,
   ignored_root_segment_skips_all ["third-party".data]
     [sampleUnderIgnoredRoot] (by decide) (by decide)⟩

end SpdxCheck
